import Mathlib

/-!
Shallow embedding of the ratatui_image core (src/lib.rs): the RGBA pixel
model, images, regions, views, the view-pixel iterator, alpha compositing
and the half-block cell renderer. Machine integers (u8, u16, usize) are
modelled as Nat with explicit wrap-around (mod 2^w) at the operations where
the source performs machine arithmetic; f32 values appearing in the scaled
render path are modelled by an exact type over rationals extended with
infinity and a not-a-number value, matching IEEE semantics on the operations
the proofs below evaluate (which are all exact in f32: divisions by zero,
multiplications by zero or infinity, and ratios of small dyadic integers).
-/

/-- An image pixel color, RGBA; channels are u8 values. -/
structure Pixel where
  r : Nat
  g : Nat
  b : Nat
  a : Nat
deriving DecidableEq, Repr

/-- `Pixel::default()`: fully transparent black. -/
def Pixel.default : Pixel := ⟨0, 0, 0, 0⟩

/-- A single frame image: row-major RGBA pixel buffer plus dimensions. -/
structure Image where
  pixels : List Pixel
  width : Nat
  height : Nat
deriving DecidableEq, Repr

/-- The buffer invariant maintained by every `Image` constructor in the
source: the pixel vector has exactly `width * height` entries. -/
def Image.WF (im : Image) : Prop :=
  im.pixels.length = im.width * im.height

instance (im : Image) : Decidable im.WF :=
  inferInstanceAs (Decidable (im.pixels.length = im.width * im.height))

/-- Fit mode for rendering an `ImageView`. -/
inductive Fit
  | Zoom
  | Stretch
deriving DecidableEq, Repr

/-- Coordinates of a region of an image, in pixel space. -/
structure Region where
  x : Nat
  y : Nat
  width : Nat
  height : Nat
deriving DecidableEq, Repr

/-- Background color for rendering, opaque RGB. -/
structure BgColor where
  r : Nat
  g : Nat
  b : Nat
deriving DecidableEq, Repr

/-- A renderable view of an image. The source borrows the image; the
embedding holds it by value. -/
structure ImageView where
  image : Image
  fit : Fit
  region : Region
  bg : BgColor
deriving DecidableEq, Repr

/-- `Image::with_size(width, height)`: all pixels opaque black. -/
def Image.with_size (width height : Nat) : Image :=
  ⟨List.replicate (width * height) ⟨0, 0, 0, 255⟩, width, height⟩

/-- `Image::pixel(x, y)`: bounds-checked lookup at `pixels[y*width + x]`.
The source indexes the vector directly after the bounds check (a panic if
the buffer were shorter than `width*height`); the embedding returns the
optional list lookup, which is `some` whenever the image is `WF`. -/
def Image.pixel (im : Image) (x y : Nat) : Option Pixel :=
  if x ≥ im.width ∨ y ≥ im.height then none
  else im.pixels[(y * im.width) + x]?

/-- `ImageView::new(image)`: full-image region, `Zoom` fit, black bg. -/
def ImageView.new (image : Image) : ImageView :=
  ⟨image, Fit.Zoom, ⟨0, 0, image.width, image.height⟩, ⟨0, 0, 0⟩⟩

/-- `Image::view()`. -/
def Image.view (im : Image) : ImageView :=
  ImageView.new im

/-- `ImageView::set_region(region)`: clamp the requested region against the
image dimensions, collapsing to the zero region when the requested origin
lies strictly outside the image. -/
def ImageView.set_region (v : ImageView) (region : Region) : ImageView :=
  if region.x > v.image.width ∨ region.y > v.image.height then
    { v with region := ⟨0, 0, 0, 0⟩ }
  else
    let width :=
      if region.x + region.width > v.image.width then
        v.image.width - region.x
      else region.width
    let height :=
      if region.y + region.height > v.image.height then
        v.image.height - region.y
      else region.height
    { v with region := ⟨region.x, region.y, width, height⟩ }

/-- `ImageView::with_region(region)`: builder-style variant. -/
def ImageView.with_region (v : ImageView) (region : Region) : ImageView :=
  v.set_region region

/-- `ImageView::pixel(x, y)`: region-relative bounds-checked lookup. -/
def ImageView.pixel (v : ImageView) (x y : Nat) : Option Pixel :=
  if x ≥ v.region.width ∨ y ≥ v.region.height then none
  else v.image.pixel (x + v.region.x) (y + v.region.y)

/-- `apply_alpha(val, bg, alpha)`: integer alpha blend. The source computes
in u16 (`val as u16 * alpha as u16 + bg as u16 * (255 - alpha) as u16`, then
`/ 255`, then `as u8`); each u16 operation is modelled with its mod-2^16
wrap and the final u8 cast with mod 2^8. `255 - alpha` is u8 subtraction,
which for `alpha ≤ 255` agrees with Nat subtraction. -/
def apply_alpha (val bg alpha : Nat) : Nat :=
  ((val * alpha) % 65536 + (bg * (255 - alpha)) % 65536) % 65536 / 255 % 256

/-- Terminal cell colors: the embedding needs only the two variants the
renderer emits, `Color::Reset` and `Color::Rgb`. -/
inductive Color
  | Reset
  | Rgb (r g b : Nat)
deriving DecidableEq, Repr

/-- `Pixel::on(bg)`: per-channel alpha blend against the background. -/
def Pixel.on (p : Pixel) (bg : BgColor) : Color :=
  Color.Rgb (apply_alpha p.r bg.r p.a) (apply_alpha p.g bg.g p.a)
    (apply_alpha p.b bg.b p.a)

/-- `usize::MAX`, the exhausted-cursor sentinel of `ViewPixels`. -/
def USIZE_MAX : Nat := 2 ^ 64 - 1

/-- An iterator over the pixels of an `ImageView`. -/
structure ViewPixels where
  pixels : List Pixel
  region : Region
  real_width : Nat
  x : Nat
  y : Nat
deriving DecidableEq, Repr

/-- `ViewPixels::next()`. The outer `Option` is iterator exhaustion; the
inner `Option Pixel` is the buffer index `pixels[y*real_width + x]`, whose
`none` case marks an out-of-bounds index, which is a panic in the source. -/
def ViewPixels.next (it : ViewPixels) : Option (Option Pixel × ViewPixels) :=
  if it.x = USIZE_MAX then
    none
  else
    let x := it.x
    let y := it.y
    let x1 := it.x + 1
    let st :=
      if x1 ≥ it.region.x + it.region.width then
        if it.y + 1 ≥ it.region.y + it.region.height then
          { it with x := USIZE_MAX, y := USIZE_MAX }
        else
          { it with x := it.region.x, y := it.y + 1 }
      else
        { it with x := x1 }
    some (it.pixels[(y * it.real_width) + x]?, st)

/-- `ImageView::pixels()`: a fresh cursor at the region's top-left. -/
def ImageView.pixels (v : ImageView) : ViewPixels :=
  ⟨v.image.pixels, v.region, v.image.width, v.region.x, v.region.y⟩

/-- Collect up to `n` items from the iterator by repeated `next`. -/
def ViewPixels.take : Nat → ViewPixels → List (Option Pixel)
  | 0, _ => []
  | n + 1, it =>
    match it.next with
    | none => []
    | some (p, it1) => p :: ViewPixels.take n it1

/-- Exact model of the nonnegative f32 values flowing through the scaled
render path: a rational, positive infinity, or not-a-number. Every f32
operation the theorems below evaluate is exact in IEEE arithmetic (division
by zero, multiplication by zero or by infinity, and quotients whose result
is representable), so the rational model coincides with the source on those
evaluations. Negative values never arise: every operand is a cast of an
unsigned integer. -/
inductive RF
  | nan
  | inf
  | fin (q : ℚ)
deriving DecidableEq, Repr

/-- f32 multiplication on nonnegative operands: `0 * inf = nan`. -/
def RF.mul : RF → RF → RF
  | nan, _ => nan
  | _, nan => nan
  | inf, inf => inf
  | inf, fin q => if q = 0 then nan else inf
  | fin q, inf => if q = 0 then nan else inf
  | fin a, fin b => fin (a * b)

/-- f32 division on nonnegative operands: `0/0 = nan`, `x/0 = inf`,
`x/inf = 0`. -/
def RF.div : RF → RF → RF
  | nan, _ => nan
  | _, nan => nan
  | inf, inf => nan
  | inf, fin _ => inf
  | fin _, inf => fin 0
  | fin a, fin b => if b = 0 then (if a = 0 then nan else inf) else fin (a / b)

/-- f32 comparison: every comparison with nan is false. -/
def RF.lt : RF → RF → Bool
  | nan, _ => false
  | _, nan => false
  | inf, _ => false
  | fin _, inf => true
  | fin a, fin b => decide (a < b)

/-- Rust `as usize` cast from f32: saturating, nan goes to 0, truncation
toward zero on finite nonnegative values. -/
def RF.toUsize : RF → Nat
  | nan => 0
  | inf => USIZE_MAX
  | fin q => if q ≤ 0 then 0 else min ⌊q⌋.toNat USIZE_MAX

/-- Wrapping usize subtraction (release-mode semantics of `a - b`). -/
def usize_sub (a b : Nat) : Nat :=
  (((a : Int) - (b : Int)) % (2 ^ 64)).toNat

/-- The scaling state computed at the head of the scaled render path:
the two zoom ratios and the letterbox offsets (u16 values). -/
structure ZoomParams where
  zoom_x : RF
  zoom_y : RF
  x_pos : Nat
  y_pos : Nat
deriving DecidableEq, Repr

/-- Lines 667-682 of the source: initial ratios
`zoom_x = aw / rw`, `zoom_y = ah * 2 / rh`, then under `Fit::Zoom` the
smaller ratio is applied to both axes and a centering offset is computed on
the other axis; under `Fit::Stretch` both ratios are kept and the offsets
are zero. The offsets are cast `as u16`, hence the mod 2^16. -/
def zoom_params (fit : Fit) (aw ah rw rh : Nat) : ZoomParams :=
  let zoom_x := RF.div (RF.fin (aw : ℚ)) (RF.fin (rw : ℚ))
  let zoom_y := RF.div (RF.mul (RF.fin (ah : ℚ)) (RF.fin 2)) (RF.fin (rh : ℚ))
  match fit with
  | Fit.Stretch => ⟨zoom_x, zoom_y, 0, 0⟩
  | Fit.Zoom =>
    if RF.lt zoom_x zoom_y then
      let y_pos :=
        usize_sub (ah * 2) (RF.toUsize (RF.mul (RF.fin (rh : ℚ)) zoom_x)) / 4
          % 65536
      ⟨zoom_x, zoom_x, 0, y_pos⟩
    else
      let x_pos :=
        usize_sub aw (RF.toUsize (RF.mul (RF.fin (rw : ℚ)) zoom_y)) / 2
          % 65536
      ⟨zoom_y, zoom_y, x_pos, 0⟩

/-- One terminal cell: glyph plus foreground and background colors. -/
structure Cell where
  glyph : Char
  fg : Color
  bg : Color
deriving DecidableEq, Repr

/-- The half-block glyph used for every filled cell. -/
def PIXEL_CHAR : Char := '▀'

/-- A blank write: `set_char(' ').set_bg(Color::Reset)` — the foreground of
the cell is left untouched. -/
def blank_write (c : Cell) : Cell :=
  { c with glyph := ' ', bg := Color.Reset }

/-- The exact-fit body (lines 653-664): cell `(x, y)` samples region-local
pixels `(x, y*2)` and `(x, y*2+1)`, substituting the default transparent
pixel for an absent lookup, and composites both against the view's bg. -/
def exact_cell (v : ImageView) (x y : Nat) (c : Cell) : Cell :=
  let pix_y1 := y * 2
  let pix_y2 := pix_y1 + 1
  let pix1 := ((v.pixel x pix_y1).getD Pixel.default).on v.bg
  let pix2 := ((v.pixel x pix_y2).getD Pixel.default).on v.bg
  { c with glyph := PIXEL_CHAR, fg := pix1, bg := pix2 }

/-- The scaled-path body (lines 684-714): margin cells are blank; otherwise
the cell inverse-maps to two source sub-pixel rows, renders blank when both
are absent, and otherwise composites whichever rows are present (an absent
row contributes `Color::Reset`). -/
def scaled_cell (v : ImageView) (zp : ZoomParams) (x y : Nat) (c : Cell) :
    Cell :=
  if x < zp.x_pos ∨ y < zp.y_pos then blank_write c
  else
    let pix_x := RF.toUsize (RF.div (RF.fin ((x - zp.x_pos : Nat) : ℚ)) zp.zoom_x)
    let y1 := (y - zp.y_pos) * 2
    let y2 := y1 + 1
    let pix_y1 := RF.toUsize (RF.div (RF.fin (y1 : ℚ)) zp.zoom_y)
    let pix_y2 := RF.toUsize (RF.div (RF.fin (y2 : ℚ)) zp.zoom_y)
    let pix1 := v.pixel pix_x pix_y1
    let pix2 := v.pixel pix_x pix_y2
    if pix1 = none ∧ pix2 = none then blank_write c
    else
      let c1 := match pix1 with
        | none => Color.Reset
        | some p => p.on v.bg
      let c2 := match pix2 with
        | none => Color.Reset
        | some p => p.on v.bg
      { c with glyph := PIXEL_CHAR, fg := c1, bg := c2 }

/-- `<ImageView as Widget>::render`, per target cell: what the write to
`buf.get_mut(x, y)` (for `x < aw`, `y < ah`, area dimensions `aw`, `ah`)
does to the previous cell content `c`. The loops write each cell exactly
once, so the per-cell function is a complete model of the render. -/
def render_cell (v : ImageView) (aw ah x y : Nat) (c : Cell) : Cell :=
  if aw = v.region.width ∧ ah * 2 = v.region.height then
    exact_cell v x y c
  else
    scaled_cell v (zoom_params v.fit aw ah v.region.width v.region.height) x y c

/-- The clamping policy of `set_region` written out as the specification
states it, declared separately for comparison with the implementation. -/
def set_region_spec (im : Image) (r : Region) : Region :=
  if r.x > im.width ∨ r.y > im.height then ⟨0, 0, 0, 0⟩
  else
    ⟨r.x, r.y,
      if r.x + r.width > im.width then im.width - r.x else r.width,
      if r.y + r.height > im.height then im.height - r.y else r.height⟩

/-- The `pix_x` inverse mapping of the scaled path at `x_pos = 0`, applied
with the `zoom_x` the code computes for `Stretch` fit of a 4-wide region
into an 8-wide area. -/
def stretch_pix_x (x : Nat) : Nat :=
  RF.toUsize (RF.div (RF.fin (x : ℚ)) (zoom_params Fit.Stretch 8 1 4 4).zoom_x)

lemma apply_alpha_num_le (v b a : Nat) (hv : v ≤ 255) (hb : b ≤ 255)
    (ha : a ≤ 255) : v * a + b * (255 - a) ≤ 65025 := by
  have h1 : v * a ≤ 255 * a := Nat.mul_le_mul_right a hv
  have h2 : b * (255 - a) ≤ 255 * (255 - a) := Nat.mul_le_mul_right _ hb
  calc v * a + b * (255 - a) ≤ 255 * a + 255 * (255 - a) := Nat.add_le_add h1 h2
    _ = 255 * (a + (255 - a)) := (Nat.mul_add 255 a (255 - a)).symm
    _ = 255 * 255 := by rw [show a + (255 - a) = 255 from by omega]
    _ = 65025 := rfl

lemma apply_alpha_eq (v b a : Nat) (hv : v ≤ 255) (hb : b ≤ 255)
    (ha : a ≤ 255) : apply_alpha v b a = (v * a + b * (255 - a)) / 255 := by
  have hle := apply_alpha_num_le v b a hv hb ha
  unfold apply_alpha
  generalize v * a = p at hle ⊢
  generalize b * (255 - a) = q at hle ⊢
  omega

lemma blend_num_mono (v b a1 a2 : Nat) (hbv : b ≤ v) (h12 : a1 ≤ a2)
    (ha2 : a2 ≤ 255) :
    v * a1 + b * (255 - a1) ≤ v * a2 + b * (255 - a2) := by
  obtain ⟨d, rfl⟩ : ∃ d, a2 = a1 + d := ⟨a2 - a1, by omega⟩
  have e2 : 255 - a1 = (255 - (a1 + d)) + d := by omega
  rw [e2, Nat.mul_add, Nat.mul_add]
  have hd : b * d ≤ v * d := Nat.mul_le_mul_right d hbv
  generalize v * a1 = A
  generalize b * (255 - (a1 + d)) = B
  generalize v * d = D at hd ⊢
  generalize b * d = C at hd ⊢
  omega

lemma blend_num_anti (v b a1 a2 : Nat) (hvb : v ≤ b) (h12 : a1 ≤ a2)
    (ha2 : a2 ≤ 255) :
    v * a2 + b * (255 - a2) ≤ v * a1 + b * (255 - a1) := by
  obtain ⟨d, rfl⟩ : ∃ d, a2 = a1 + d := ⟨a2 - a1, by omega⟩
  have e2 : 255 - a1 = (255 - (a1 + d)) + d := by omega
  rw [e2, Nat.mul_add, Nat.mul_add]
  have hd : v * d ≤ b * d := Nat.mul_le_mul_right d hvb
  generalize v * a1 = A
  generalize b * (255 - (a1 + d)) = B
  generalize v * d = D at hd ⊢
  generalize b * d = C at hd ⊢
  omega

lemma view_pixel_some (v : ImageView) (hwf : v.image.WF)
    (hcx : v.region.x + v.region.width ≤ v.image.width)
    (hcy : v.region.y + v.region.height ≤ v.image.height)
    (x y : Nat) (hx : x < v.region.width) (hy : y < v.region.height) :
    ∃ p, v.pixel x y = some p
      ∧ v.image.pixel (x + v.region.x) (y + v.region.y) = some p := by
  have hidx : (y + v.region.y) * v.image.width + (x + v.region.x)
      < v.image.pixels.length := by
    rw [hwf]
    calc (y + v.region.y) * v.image.width + (x + v.region.x)
        < (y + v.region.y) * v.image.width + v.image.width := by omega
      _ = (y + v.region.y + 1) * v.image.width := by ring
      _ ≤ v.image.height * v.image.width := Nat.mul_le_mul_right _ (by omega)
      _ = v.image.width * v.image.height := Nat.mul_comm _ _
  unfold ImageView.pixel Image.pixel
  rw [if_neg (by omega), if_neg (by omega)]
  exact ⟨_, List.getElem?_eq_getElem hidx, List.getElem?_eq_getElem hidx⟩

/-- C2: `set_region` stores the zero region when the requested origin lies
strictly outside the image (`x > width` or `y > height`), and otherwise
keeps `x`, `y` while truncating `width` to `image.width - x` exactly when
`x + width > image.width` and `height` to `image.height - y` exactly when
`y + height > image.height`; every other field of the view is unchanged. -/
theorem set_region_matches_spec (v : ImageView) (r : Region) :
    (v.set_region r).region = set_region_spec v.image r
    ∧ (v.set_region r).image = v.image
    ∧ (v.set_region r).fit = v.fit
    ∧ (v.set_region r).bg = v.bg := by
  unfold ImageView.set_region set_region_spec
  split
  · exact ⟨rfl, rfl, rfl, rfl⟩
  · exact ⟨rfl, rfl, rfl, rfl⟩

/-- C3: `apply_alpha(v, b, a)` equals `(v*a + b*(255-a)) / 255` rounded
down, the 16-bit intermediate sum stays below 2^16, alpha 255 returns the
value, alpha 0 returns the background, and `Pixel::on` applies the blend
independently to the three color channels. -/
theorem apply_alpha_blend_spec (v b a : Nat) (hv : v < 256) (hb : b < 256)
    (ha : a < 256) :
    apply_alpha v b a = (v * a + b * (255 - a)) / 255
    ∧ v * a + b * (255 - a) < 65536
    ∧ apply_alpha v b 255 = v
    ∧ apply_alpha v b 0 = b
    ∧ ∀ (p : Pixel) (bg : BgColor),
        p.on bg
          = Color.Rgb (apply_alpha p.r bg.r p.a) (apply_alpha p.g bg.g p.a)
              (apply_alpha p.b bg.b p.a) := by
  refine ⟨apply_alpha_eq v b a (by omega) (by omega) (by omega), ?_, ?_, ?_,
    fun p bg => rfl⟩
  · exact lt_of_le_of_lt
      (apply_alpha_num_le v b a (by omega) (by omega) (by omega)) (by norm_num)
  · rw [apply_alpha_eq v b 255 (by omega) (by omega) (le_refl 255)]
    omega
  · rw [apply_alpha_eq v b 0 (by omega) (by omega) (by omega)]
    omega

/-- C3 witness at `v = 200`, `b = 100`, `a = 128`. -/
theorem apply_alpha_blend_spec_witness :
    (200 : Nat) < 256 ∧ (100 : Nat) < 256 ∧ (128 : Nat) < 256
    ∧ (apply_alpha 200 100 128 = (200 * 128 + 100 * (255 - 128)) / 255
      ∧ 200 * 128 + 100 * (255 - 128) < 65536
      ∧ apply_alpha 200 100 255 = 200
      ∧ apply_alpha 200 100 0 = 100
      ∧ ∀ (p : Pixel) (bg : BgColor),
          p.on bg
            = Color.Rgb (apply_alpha p.r bg.r p.a) (apply_alpha p.g bg.g p.a)
                (apply_alpha p.b bg.b p.a)) :=
  ⟨by decide, by decide, by decide,
    apply_alpha_blend_spec 200 100 128 (by decide) (by decide) (by decide)⟩

/-- C9: for fixed channel values, `apply_alpha` is monotonically
non-decreasing in alpha when the value dominates the background, and
non-increasing when the background dominates. -/
theorem apply_alpha_monotone_spec (v b a1 a2 : Nat) (hv : v < 256)
    (hb : b < 256) (h12 : a1 ≤ a2) (ha2 : a2 ≤ 255) :
    (b ≤ v → apply_alpha v b a1 ≤ apply_alpha v b a2)
    ∧ (v ≤ b → apply_alpha v b a2 ≤ apply_alpha v b a1) := by
  constructor
  · intro hbv
    rw [apply_alpha_eq v b a1 (by omega) (by omega) (by omega),
      apply_alpha_eq v b a2 (by omega) (by omega) (by omega)]
    exact Nat.div_le_div_right (blend_num_mono v b a1 a2 hbv h12 ha2)
  · intro hvb
    rw [apply_alpha_eq v b a1 (by omega) (by omega) (by omega),
      apply_alpha_eq v b a2 (by omega) (by omega) (by omega)]
    exact Nat.div_le_div_right (blend_num_anti v b a1 a2 hvb h12 ha2)

/-- C9 witness at `v = 200`, `b = 50`, `a1 = 10`, `a2 = 20`. -/
theorem apply_alpha_monotone_spec_witness :
    (200 : Nat) < 256 ∧ (50 : Nat) < 256 ∧ (10 : Nat) ≤ 20 ∧ (20 : Nat) ≤ 255
    ∧ ((50 ≤ 200 → apply_alpha 200 50 10 ≤ apply_alpha 200 50 20)
      ∧ (200 ≤ 50 → apply_alpha 200 50 20 ≤ apply_alpha 200 50 10)) :=
  ⟨by decide, by decide, by decide, by decide,
    apply_alpha_monotone_spec 200 50 10 20 (by decide) (by decide) (by decide)
      (by decide)⟩

/-- C6: through a well-formed image and a region clamped against it,
`ImageView::pixel(x, y)` is absent exactly when `x ≥ region.width` or
`y ≥ region.height`, and inside those bounds it returns the image pixel at
`(region.x + x, region.y + y)` — the image-level bounds check and the
buffer index never fail. -/
theorem view_pixel_bounds_spec (v : ImageView) (hwf : v.image.WF)
    (hcx : v.region.x + v.region.width ≤ v.image.width)
    (hcy : v.region.y + v.region.height ≤ v.image.height) (x y : Nat) :
    (v.pixel x y = none ↔ (v.region.width ≤ x ∨ v.region.height ≤ y))
    ∧ (x < v.region.width → y < v.region.height →
        ∃ p, v.pixel x y = some p
          ∧ v.image.pixel (x + v.region.x) (y + v.region.y) = some p) := by
  constructor
  · constructor
    · intro hnone
      by_contra hcon
      push_neg at hcon
      obtain ⟨p, hp, _⟩ :=
        view_pixel_some v hwf hcx hcy x y (by omega) (by omega)
      rw [hp] at hnone
      exact Option.noConfusion hnone
    · intro hout
      unfold ImageView.pixel
      rw [if_pos hout]
  · intro hx hy
    exact view_pixel_some v hwf hcx hcy x y hx hy

/-- C6 witness: the full-image view of a 3×2 image, at `(x, y) = (1, 1)`. -/
theorem view_pixel_bounds_spec_witness :
    ((Image.with_size 3 2).view).image.WF
    ∧ (((Image.with_size 3 2).view).pixel 1 1 = none ↔
        (((Image.with_size 3 2).view).region.width ≤ 1
          ∨ ((Image.with_size 3 2).view).region.height ≤ 1))
    ∧ (1 < ((Image.with_size 3 2).view).region.width →
        1 < ((Image.with_size 3 2).view).region.height →
        ∃ p, ((Image.with_size 3 2).view).pixel 1 1 = some p
          ∧ ((Image.with_size 3 2).view).image.pixel
              (1 + ((Image.with_size 3 2).view).region.x)
              (1 + ((Image.with_size 3 2).view).region.y) = some p) :=
  ⟨by decide,
    (view_pixel_bounds_spec ((Image.with_size 3 2).view) (by decide)
      (by decide) (by decide) 1 1).1,
    (view_pixel_bounds_spec ((Image.with_size 3 2).view) (by decide)
      (by decide) (by decide) 1 1).2⟩

/-- C8 counterexample: requesting region `{4, 0, 2, 2}` of a 4×4 image —
origin exactly on the `x == width` boundary — stores `{4, 0, 0, 2}`, a
zero-width region at that origin, not the zero region `{0, 0, 0, 0}`. -/
theorem boundary_origin_counterexample :
    (((Image.with_size 4 4).view).set_region ⟨4, 0, 2, 2⟩).region
      = ⟨4, 0, 0, 2⟩
    ∧ (⟨4, 0, 0, 2⟩ : Region) ≠ ⟨0, 0, 0, 0⟩ := by
  decide

/-- C8 amended: when the requested origin lies exactly on the image
boundary (and the other coordinate is within bounds), the stored region
keeps the origin and clamps the boundary-touching dimension to zero — a
zero-width (resp. zero-height) region at that origin; the full collapse to
`{0,0,0,0}` happens only for origins strictly outside the image. -/
theorem boundary_origin_amended (v : ImageView) (r : Region) :
    (r.x = v.image.width → r.y ≤ v.image.height →
      (v.set_region r).region
        = ⟨r.x, r.y, 0,
            if r.y + r.height > v.image.height then v.image.height - r.y
            else r.height⟩)
    ∧ (r.y = v.image.height → r.x ≤ v.image.width →
      (v.set_region r).region
        = ⟨r.x, r.y,
            if r.x + r.width > v.image.width then v.image.width - r.x
            else r.width, 0⟩) := by
  constructor
  · intro h1 h2
    unfold ImageView.set_region
    rw [if_neg (by omega)]
    show Region.mk _ _ _ _ = _
    congr 1
    split <;> omega
  · intro h1 h2
    unfold ImageView.set_region
    rw [if_neg (by omega)]
    show Region.mk _ _ _ _ = _
    congr 1
    split <;> omega

/-- C1: under the exact-fit condition (`aw == region.width` and
`ah * 2 == region.height`), every in-area cell `(x, y)` is written with the
half-block glyph, foreground the region-relative pixel `(x, 2y)` composited
against the view's background color, and background the region-relative
pixel `(x, 2y + 1)` composited likewise; both lookups succeed. -/
theorem exact_fit_render_spec (v : ImageView) (aw ah x y : Nat) (c : Cell)
    (hwf : v.image.WF)
    (hcx : v.region.x + v.region.width ≤ v.image.width)
    (hcy : v.region.y + v.region.height ≤ v.image.height)
    (he1 : aw = v.region.width) (he2 : ah * 2 = v.region.height)
    (hx : x < aw) (hy : y < ah) :
    ∃ p1 p2,
      v.pixel x (y * 2) = some p1
      ∧ v.pixel x (y * 2 + 1) = some p2
      ∧ render_cell v aw ah x y c = ⟨PIXEL_CHAR, p1.on v.bg, p2.on v.bg⟩ := by
  obtain ⟨p1, hp1, _⟩ :=
    view_pixel_some v hwf hcx hcy x (y * 2) (by omega) (by omega)
  obtain ⟨p2, hp2, _⟩ :=
    view_pixel_some v hwf hcx hcy x (y * 2 + 1) (by omega) (by omega)
  refine ⟨p1, p2, hp1, hp2, ?_⟩
  unfold render_cell
  rw [if_pos ⟨he1, he2⟩]
  unfold exact_cell
  simp only [hp1, hp2]
  rfl

/-- C1 witness: the full view of a 2×4 image rendered into a 2×2 cell
area, at cell `(1, 0)`. -/
theorem exact_fit_render_spec_witness :
    ((Image.with_size 2 4).view).image.WF
    ∧ (2 : Nat) = ((Image.with_size 2 4).view).region.width
    ∧ (2 : Nat) * 2 = ((Image.with_size 2 4).view).region.height
    ∧ (1 : Nat) < 2 ∧ (0 : Nat) < 2
    ∧ ∃ p1 p2,
        ((Image.with_size 2 4).view).pixel 1 (0 * 2) = some p1
        ∧ ((Image.with_size 2 4).view).pixel 1 (0 * 2 + 1) = some p2
        ∧ render_cell ((Image.with_size 2 4).view) 2 2 1 0
            ⟨' ', Color.Reset, Color.Reset⟩
          = ⟨PIXEL_CHAR, p1.on ((Image.with_size 2 4).view).bg,
              p2.on ((Image.with_size 2 4).view).bg⟩ :=
  ⟨by decide, by decide, by decide, by decide, by decide,
    exact_fit_render_spec ((Image.with_size 2 4).view) 2 2 1 0
      ⟨' ', Color.Reset, Color.Reset⟩ (by decide) (by decide) (by decide)
      (by decide) (by decide) (by decide) (by decide)⟩

/-- C10: the exact-fit path writes every in-area cell with the half-block
glyph (never the space glyph) and two `Color::Rgb` colors (never
`Color::Reset`); an absent pixel lookup is replaced by the default
transparent pixel composited against the view's background color. -/
theorem exact_fit_never_blank (v : ImageView) (aw ah x y : Nat) (c : Cell)
    (he1 : aw = v.region.width) (he2 : ah * 2 = v.region.height)
    (_hx : x < aw) (_hy : y < ah) :
    (render_cell v aw ah x y c).glyph = PIXEL_CHAR
    ∧ PIXEL_CHAR ≠ ' '
    ∧ (∃ r g b, (render_cell v aw ah x y c).fg = Color.Rgb r g b)
    ∧ (∃ r g b, (render_cell v aw ah x y c).bg = Color.Rgb r g b)
    ∧ (v.pixel x (y * 2) = none →
        (render_cell v aw ah x y c).fg = Pixel.default.on v.bg)
    ∧ (v.pixel x (y * 2 + 1) = none →
        (render_cell v aw ah x y c).bg = Pixel.default.on v.bg) := by
  have hrc : render_cell v aw ah x y c = exact_cell v x y c := by
    unfold render_cell
    rw [if_pos ⟨he1, he2⟩]
  rw [hrc]
  unfold exact_cell
  refine ⟨rfl, by decide, ⟨_, _, _, rfl⟩, ⟨_, _, _, rfl⟩, ?_, ?_⟩
  · intro hnone
    show ((v.pixel x (y * 2)).getD Pixel.default).on v.bg = Pixel.default.on v.bg
    rw [hnone]
    rfl
  · intro hnone
    show ((v.pixel x (y * 2 + 1)).getD Pixel.default).on v.bg
      = Pixel.default.on v.bg
    rw [hnone]
    rfl

/-- C10 witness: the full view of a 1×2 image into a 1×1 cell area, at
cell `(0, 0)`, over an arbitrary previous cell content. -/
theorem exact_fit_never_blank_witness :
    (1 : Nat) = ((Image.with_size 1 2).view).region.width
    ∧ (1 : Nat) * 2 = ((Image.with_size 1 2).view).region.height
    ∧ (0 : Nat) < 1 ∧ (0 : Nat) < 1
    ∧ ((render_cell ((Image.with_size 1 2).view) 1 1 0 0
          ⟨'Z', Color.Reset, Color.Reset⟩).glyph = PIXEL_CHAR
      ∧ PIXEL_CHAR ≠ ' '
      ∧ (∃ r g b, (render_cell ((Image.with_size 1 2).view) 1 1 0 0
            ⟨'Z', Color.Reset, Color.Reset⟩).fg = Color.Rgb r g b)
      ∧ (∃ r g b, (render_cell ((Image.with_size 1 2).view) 1 1 0 0
            ⟨'Z', Color.Reset, Color.Reset⟩).bg = Color.Rgb r g b)
      ∧ (((Image.with_size 1 2).view).pixel 0 (0 * 2) = none →
          (render_cell ((Image.with_size 1 2).view) 1 1 0 0
            ⟨'Z', Color.Reset, Color.Reset⟩).fg
            = Pixel.default.on ((Image.with_size 1 2).view).bg)
      ∧ (((Image.with_size 1 2).view).pixel 0 (0 * 2 + 1) = none →
          (render_cell ((Image.with_size 1 2).view) 1 1 0 0
            ⟨'Z', Color.Reset, Color.Reset⟩).bg
            = Pixel.default.on ((Image.with_size 1 2).view).bg)) :=
  ⟨by decide, by decide, by decide, by decide,
    exact_fit_never_blank ((Image.with_size 1 2).view) 1 1 0 0
      ⟨'Z', Color.Reset, Color.Reset⟩ (by decide) (by decide) (by decide)
      (by decide)⟩

/-- C4: rendering a view whose clamped region has zero width or zero
height writes every in-area cell blank: the space glyph with
`Color::Reset` background, leaving the cell's foreground untouched. The
model is total, so the scaled path's divisions by a zero region dimension
(infinity in f32) produce no failure, matching the panic-free source. -/
theorem zero_region_renders_blank (v : ImageView) (aw ah x y : Nat)
    (c : Cell) (hz : v.region.width = 0 ∨ v.region.height = 0)
    (hx : x < aw) (hy : y < ah) :
    (render_cell v aw ah x y c).glyph = ' '
    ∧ (render_cell v aw ah x y c).bg = Color.Reset
    ∧ (render_cell v aw ah x y c).fg = c.fg := by
  have hne : ¬(aw = v.region.width ∧ ah * 2 = v.region.height) := by
    rintro ⟨h1, h2⟩
    rcases hz with h | h <;> omega
  have hp : ∀ px py : Nat, v.pixel px py = none := by
    intro px py
    unfold ImageView.pixel
    rw [if_pos]
    rcases hz with h | h
    · left
      omega
    · right
      omega
  have hrc : render_cell v aw ah x y c
      = scaled_cell v (zoom_params v.fit aw ah v.region.width v.region.height)
          x y c := by
    unfold render_cell
    rw [if_neg hne]
  rw [hrc]
  unfold scaled_cell
  split
  · exact ⟨rfl, rfl, rfl⟩
  · simp only [hp, blank_write]
    exact ⟨rfl, rfl, rfl⟩

/-- C4 witness: the 4×4 all-black image with region clamped to
`{2, 0, 0, 3}` (zero width), rendered into a 5×3 area at cell `(0, 0)`. -/
theorem zero_region_renders_blank_witness :
    ((((Image.with_size 4 4).view).set_region ⟨2, 0, 0, 3⟩).region.width = 0
      ∨ (((Image.with_size 4 4).view).set_region ⟨2, 0, 0, 3⟩).region.height
          = 0)
    ∧ (0 : Nat) < 5 ∧ (0 : Nat) < 3
    ∧ ((render_cell (((Image.with_size 4 4).view).set_region ⟨2, 0, 0, 3⟩)
          5 3 0 0 ⟨'A', Color.Rgb 1 2 3, Color.Rgb 4 5 6⟩).glyph = ' '
      ∧ (render_cell (((Image.with_size 4 4).view).set_region ⟨2, 0, 0, 3⟩)
          5 3 0 0 ⟨'A', Color.Rgb 1 2 3, Color.Rgb 4 5 6⟩).bg = Color.Reset
      ∧ (render_cell (((Image.with_size 4 4).view).set_region ⟨2, 0, 0, 3⟩)
          5 3 0 0 ⟨'A', Color.Rgb 1 2 3, Color.Rgb 4 5 6⟩).fg
          = (⟨'A', Color.Rgb 1 2 3, Color.Rgb 4 5 6⟩ : Cell).fg) :=
  ⟨by decide, by decide, by decide,
    zero_region_renders_blank
      (((Image.with_size 4 4).view).set_region ⟨2, 0, 0, 3⟩) 5 3 0 0
      ⟨'A', Color.Rgb 1 2 3, Color.Rgb 4 5 6⟩ (by decide) (by decide)
      (by decide)⟩

/-- C7 counterexample: `Stretch` fit of region `{0, 0, 4, 4}` into an area
of width 8 and height 1 computes `zoom_x = 2.0` but `zoom_y = 0.5`, not
the claimed `zoom_y = 1.0` (the code computes
`zoom_y = area.height * 2 / region.height = 2 / 4`; both divisions are
exact in f32). -/
theorem stretch_zoom_counterexample :
    zoom_params Fit.Stretch 8 1 4 4 = ⟨RF.fin 2, RF.fin (1 / 2), 0, 0⟩
    ∧ RF.fin ((1 : ℚ) / 2) ≠ RF.fin 1 := by
  constructor
  · simp only [zoom_params, RF.div, RF.mul]
    norm_num
  · intro h
    rw [RF.fin.injEq] at h
    norm_num at h

/-- C7 amended: the same render computes `zoom_x = 2.0` and
`zoom_y = 0.5`, and each source pixel column still maps to two target cell
columns: the scaled path's inverse column mapping
`pix_x = floor((x - x_pos) / zoom_x)` (with `x_pos = 0`) sends target
columns `0..7` to source columns `0,0,1,1,2,2,3,3`. -/
theorem stretch_zoom_amended :
    zoom_params Fit.Stretch 8 1 4 4 = ⟨RF.fin 2, RF.fin (1 / 2), 0, 0⟩
    ∧ stretch_pix_x 0 = 0 ∧ stretch_pix_x 1 = 0
    ∧ stretch_pix_x 2 = 1 ∧ stretch_pix_x 3 = 1
    ∧ stretch_pix_x 4 = 2 ∧ stretch_pix_x 5 = 2
    ∧ stretch_pix_x 6 = 3 ∧ stretch_pix_x 7 = 3 := by
  have hz : zoom_params Fit.Stretch 8 1 4 4
      = ⟨RF.fin 2, RF.fin (1 / 2), 0, 0⟩ := by
    simp only [zoom_params, RF.div, RF.mul]
    norm_num
  refine ⟨hz, ?_, ?_, ?_, ?_, ?_, ?_, ?_, ?_⟩ <;>
    · simp only [stretch_pix_x, hz, RF.div, RF.toUsize, USIZE_MAX]
      norm_num [Nat.min_def] <;> omega

/-- C5: over a zero-size region the pixel iterator is not empty — its
first `next()` yields the buffer entry at the cursor's starting index
before the exhaustion check fires (and on an empty 0×0 image that index
is out of bounds, a panic in the source, modelled as an inner `none`). -/
theorem view_pixels_zero_region_bug :
    ((((Image.with_size 1 1).view).with_region ⟨0, 0, 0, 0⟩).pixels).take 3
      = [some ⟨0, 0, 0, 255⟩]
    ∧ ((((Image.with_size 1 1).view).with_region
          ⟨0, 0, 0, 0⟩).pixels).take 3 ≠ []
    ∧ (((Image.with_size 0 0).view).pixels).take 3 = [none] := by
  decide

/-- C8 amended witness: region `{4, 1, 2, 5}` of a 4×4 image stores
`{4, 1, 0, 3}`. -/
theorem boundary_origin_amended_witness :
    (⟨4, 1, 2, 5⟩ : Region).x = ((Image.with_size 4 4).view).image.width
    ∧ (⟨4, 1, 2, 5⟩ : Region).y ≤ ((Image.with_size 4 4).view).image.height
    ∧ (((Image.with_size 4 4).view).set_region ⟨4, 1, 2, 5⟩).region
        = ⟨4, 1, 0,
            if (1 : Nat) + 5 > ((Image.with_size 4 4).view).image.height then
              ((Image.with_size 4 4).view).image.height - 1
            else 5⟩ :=
  ⟨by decide, by decide,
    (boundary_origin_amended ((Image.with_size 4 4).view) ⟨4, 1, 2, 5⟩).1
      (by decide) (by decide)⟩
